import Mathlib

/-!
Shallow embedding of the chat-completion gateway of the repository
(`src/chatbot.js`, lines 1-243 and 245-455, and `src/unnamed/part_000`):
the retry-delay parser, the error classifier, the regex-based query
extractor, the subject lookup, and the two HTTP handlers (`/chat` and
`/exam-summary`).

Modelling conventions:
- JavaScript runtime values are the inductive `JsVal` (undefined, null,
  booleans, numbers, strings, arrays, objects).  Numbers are modelled as
  integers (`Int`): every number the embedded code compares, stores or
  renders is an integer (HTTP statuses, millisecond counts); the
  millisecond magnitude the retry-delay parser builds from a matched
  duration string is modelled by exact integer arithmetic.  The code
  computes it with IEEE-754 doubles; the two agree exactly on
  whole-second delays of `v` seconds with `v * 1000 < 2^53`, and only on
  that range do the theorems below assert the magnitude (beyond it the
  double computation rounds: e.g. `Number("9007199254740993")` is
  `9007199254740992`, so the code yields `9007199254740992000`
  milliseconds where exact arithmetic would yield
  `9007199254740993000`).
- Strings are `List Char`.  `String.prototype.toUpperCase`/`toLowerCase`
  are modelled on the ASCII range (all strings the code builds or
  compares are ASCII).
- Property access is `getField`: on objects it is association-list lookup
  (runtime object keys are unique), on every other value it yields
  `undefined`, matching `?.` chains and property access on primitives.
- `fetch`, the generative provider and the API-key environment variable
  are modelled as explicit environment records; the prompt string passed
  to the provider is not modelled because no observable behaviour of the
  embedded handlers depends on it.
- A JavaScript statement that throws a `TypeError` before any other
  effect (calling `.trim()` on a non-string, destructuring `null`) is
  modelled by routing a representative error value to the catch handler;
  the exact engine message text is irrelevant (it contains no `429`).
-/

/-- JS character class for `\d` (the regexes carry no `u` flag). -/
def isDigitC (c : Char) : Bool := '0' ≤ c && c ≤ '9'

/-- JS character class for `[A-Za-z]`. -/
def isAlphaC (c : Char) : Bool := ('A' ≤ c && c ≤ 'Z') || ('a' ≤ c && c ≤ 'z')

/-- JS character class for `\w`, deciding word boundaries `\b`. -/
def isWordC (c : Char) : Bool := isDigitC c || isAlphaC c || c == '_'

/-- JS whitespace (the set recognised by `String.prototype.trim` and `\s`). -/
def isJsSpaceC (c : Char) : Bool :=
  c == ' ' || c == '\t' || c == '\n' || c == '\r' ||
  c.val == 11 || c.val == 12 || c.val == 0xa0 || c.val == 0x1680 ||
  (0x2000 ≤ c.val && c.val ≤ 0x200a) || c.val == 0x2028 || c.val == 0x2029 ||
  c.val == 0x202f || c.val == 0x205f || c.val == 0x3000 || c.val == 0xfeff

/-- Word-character test lifted to an optional character; `none` stands for
the edge of the string and is not a word character. -/
def wordAt (oc : Option Char) : Bool :=
  match oc with
  | some c => isWordC c
  | none => false

/-- Model of `String.prototype.trim` on char lists. -/
def jsTrim (s : List Char) : List Char :=
  ((s.dropWhile isJsSpaceC).reverse.dropWhile isJsSpaceC).reverse

/-- Model of `String.prototype.toLowerCase` on the ASCII range. -/
def jsLowerChar (c : Char) : Char :=
  if 'A' ≤ c && c ≤ 'Z' then Char.ofNat (c.toNat + 32) else c

/-- Model of `String.prototype.toUpperCase` on the ASCII range. -/
def jsUpperChar (c : Char) : Char :=
  if 'a' ≤ c && c ≤ 'z' then Char.ofNat (c.toNat - 32) else c

/-- Lower-case a char list. -/
def jsLower (s : List Char) : List Char := s.map jsLowerChar

/-- Upper-case a char list. -/
def jsUpper (s : List Char) : List Char := s.map jsUpperChar

/-- Decimal rendering of a natural number, as JS renders integral numbers. -/
def natDec (n : ℕ) : List Char := Nat.toDigits 10 n

/-- Does the first list start with the second one? -/
def listStartsWith : List Char → List Char → Bool
  | _, [] => true
  | [], _ :: _ => false
  | c :: tl, p :: ptl => c == p && listStartsWith tl ptl

/-- Model of `String.prototype.includes`: contiguous substring occurrence. -/
def containsSub : List Char → List Char → Bool
  | [], sub => listStartsWith [] sub
  | c :: tl, sub => listStartsWith (c :: tl) sub || containsSub tl sub

/-- Case-insensitive `listStartsWith` (for regexes with the `i` flag). -/
def ciStartsWith : List Char → List Char → Bool
  | _, [] => true
  | [], _ :: _ => false
  | c :: tl, p :: ptl => jsLowerChar c == jsLowerChar p && ciStartsWith tl ptl

/-- Length of the longest prefix satisfying `p` (the run a greedy
character-class quantifier can consume). -/
def countWhile (p : Char → Bool) : List Char → ℕ
  | [] => 0
  | c :: tl => if p c then countWhile p tl + 1 else 0

/-- Try `f` on `n, n-1, ..., 0` and return the first hit: the order in
which a greedy quantifier hands back characters on backtracking. -/
def findSomeDesc {α : Type} (f : ℕ → Option α) : ℕ → Option α
  | 0 => f 0
  | n + 1 =>
    match f (n + 1) with
    | some r => some r
    | none => findSomeDesc f n

mutual
/-- JavaScript runtime values (numbers restricted to integers, see the
module docstring). -/
inductive JsVal : Type where
  | vundefined : JsVal
  | vnull : JsVal
  | vbool : Bool → JsVal
  | vnum : Int → JsVal
  | vstr : List Char → JsVal
  | varr : JsArr → JsVal
  | vobj : JsObj → JsVal

/-- Spine of a JS array value. -/
inductive JsArr : Type where
  | nil : JsArr
  | cons : JsVal → JsArr → JsArr

/-- Spine of a JS object value: ordered fields, unique keys. -/
inductive JsObj : Type where
  | nil : JsObj
  | cons : List Char → JsVal → JsObj → JsObj
end

open JsVal

/-- The elements of a JS array as a Lean list. -/
def JsArr.toList : JsArr → List JsVal
  | .nil => []
  | .cons v tl => v :: JsArr.toList tl

/-- Build a JS array from a Lean list. -/
def jarr : List JsVal → JsArr
  | [] => .nil
  | v :: tl => .cons v (jarr tl)

/-- The fields of a JS object as a Lean association list. -/
def JsObj.pairs : JsObj → List (List Char × JsVal)
  | .nil => []
  | .cons k v tl => (k, v) :: JsObj.pairs tl

/-- Build a JS object from a Lean association list. -/
def jobj : List (List Char × JsVal) → JsObj
  | [] => .nil
  | (k, v) :: tl => .cons k v (jobj tl)

/-- JS truthiness. -/
def truthy : JsVal → Bool
  | .vundefined => false
  | .vnull => false
  | .vbool b => b
  | .vnum n => !(n == 0)
  | .vstr s => !s.isEmpty
  | .varr _ => true
  | .vobj _ => true

/-- Association-list field lookup (first matching key). -/
def lookupField : List (List Char × JsVal) → List Char → JsVal
  | [], _ => .vundefined
  | (k, v) :: tl, key => if k == key then v else lookupField tl key

/-- Property access `v?.key` / `v.key` as the embedded code uses it:
objects are looked up, everything else yields `undefined`. -/
def getField (v : JsVal) (key : List Char) : JsVal :=
  match v with
  | .vobj fs => lookupField fs.pairs key
  | _ => .vundefined

/-- JS `a || b`: the first operand when truthy, otherwise the second. -/
def jsOr (a b : JsVal) : JsVal := if truthy a then a else b

/-- Index access `v?.[i]`: array element, single-character string, or
numeric-key object lookup; `undefined` otherwise. -/
def indexJs (v : JsVal) (i : ℕ) : JsVal :=
  match v with
  | .varr xs => (JsArr.toList xs).getD i .vundefined
  | .vstr s =>
    match s.drop i with
    | [] => .vundefined
    | c :: _ => .vstr [c]
  | .vobj fs => lookupField fs.pairs (natDec i)
  | _ => .vundefined

/-- Is the value a JS string? (`typeof v === "string"`). -/
def isStrVal : JsVal → Bool
  | .vstr _ => true
  | _ => false

/-- Null or undefined (the array elements `Array.prototype.join` renders
as the empty string). -/
def isNullish : JsVal → Bool
  | .vnull => true
  | .vundefined => true
  | _ => false

/-- Comma-join, as `Array.prototype.toString` does. -/
def joinComma : List (List Char) → List Char
  | [] => []
  | [x] => x
  | x :: xs => x ++ ',' :: joinComma xs

mutual
/-- Model of the JS `String(v)` conversion for the values of this model. -/
def jsToString : JsVal → List Char
  | .vundefined => (r"undefined").toList
  | .vnull => (r"null").toList
  | .vbool true => (r"true").toList
  | .vbool false => (r"false").toList
  | .vnum n => if n < 0 then '-' :: natDec (-n).toNat else natDec n.toNat
  | .vstr s => s
  | .varr xs => joinComma (jsArrParts xs)
  | .vobj _ => (r"[object Object]").toList

/-- Stringification of the elements of an array, `null`/`undefined`
rendering as the empty string. -/
def jsArrParts : JsArr → List (List Char)
  | .nil => []
  | .cons v tl => (if isNullish v then [] else jsToString v) :: jsArrParts tl
end

/-! ### Field-name and message constants of the embedded code -/

def kStatus : List Char := (r"status").toList
def kCode : List Char := (r"code").toList
def kMessage : List Char := (r"message").toList
def kErrorDetails : List Char := (r"errorDetails").toList
def kDetails : List Char := (r"details").toList
def kResponse : List Char := (r"response").toList
def kData : List Char := (r"data").toList
def kError : List Char := (r"error").toList
def kAtType : List Char := (r"@type").toList
def kRetryDelay : List Char := (r"retryDelay").toList
def kRetryInfoType : List Char := (r"type.googleapis.com/google.rpc.RetryInfo").toList
def kRollNo : List Char := (r"rollNo").toList
def kSubjectName : List Char := (r"subjectName").toList
def kExamName : List Char := (r"examName").toList
def kFolders : List Char := (r"folders").toList
def kSubjects : List Char := (r"subjects").toList
def kMarksObtained : List Char := (r"marksObtained").toList
def kMaxMarks : List Char := (r"maxMarks").toList
def kCandidates : List Char := (r"candidates").toList
def kContent : List Char := (r"content").toList
def kParts : List Char := (r"parts").toList
def kText : List Char := (r"text").toList
def k429 : List Char := (r"429").toList
def kRateLimitTag : List Char := (r"RATE_LIMIT").toList
def kServerErrorTag : List Char := (r"SERVER_ERROR").toList
def kChatServiceError : List Char := (r"Chat service error").toList
def kMessageRequired : List Char := (r"Message required").toList
def kKeyMissing : List Char := (r"Server misconfigured: GEMINI_API_KEY missing").toList
def kUnableRespond : List Char := (r"Unable to respond.").toList
def kUnableSummary : List Char := (r"Unable to generate summary.").toList
def kFailedLoad : List Char := (r"Failed to load exam folders").toList
def kNoFolders : List Char := (r"No exam folders found for this roll number").toList
def kExamNotFound : List Char := (r"Exam not found for given examName").toList
def kSubjectKw : List Char := (r"subject").toList
def kExamKw : List Char := (r"exam").toList

/-- The double-quote character used inside interpolated messages. -/
def qc : Char := '"'

/-- The 400 message of `/exam-summary` (chatbot.js line 153). -/
def kProvideMsg : List Char :=
  (r"Provide rollNo + subjectName, or a message like: ").toList ++
  qc :: (r"Give me a review of my paper roll 21CMR001 subject DSA").toList ++
  [qc, '.']

/-- Representative engine message of the `TypeError` thrown by calling
`.trim()` on a non-string (never contains `429`). -/
def kTrimTypeErr : List Char := (r"message.trim is not a function").toList

/-- Representative engine message of the `TypeError` thrown by
destructuring a nullish request body (never contains `429`). -/
def kDestructureErr : List Char :=
  (r"Cannot destructure property of req.body as it is nullish").toList

/-- Error value standing for the `.trim()` `TypeError`. -/
def trimTypeErr : JsVal := .vobj (jobj [(kMessage, .vstr kTrimTypeErr)])

/-- Error value standing for the destructuring `TypeError`. -/
def destructureErr : JsVal := .vobj (jobj [(kMessage, .vstr kDestructureErr)])

/-! ### RetryDelayParser (`parseRetryDelayMs`, chatbot.js lines 15-41) -/

/-- Split a duration string against the anchored regex
`^(\d+(?:\.\d+)?)s$` with the `i` flag: integral digits and optional
fractional digits.  Deterministic: each quantifier consumes a maximal
digit run and the remainder must be exactly `s`/`S`. -/
def splitDur (s : List Char) : Option (List Char × List Char) :=
  let ds := s.takeWhile isDigitC
  let rest := s.drop ds.length
  if ds.isEmpty then none
  else
    match rest with
    | ['s'] => some (ds, [])
    | ['S'] => some (ds, [])
    | '.' :: r2 =>
      let fs := r2.takeWhile isDigitC
      let rest2 := r2.drop fs.length
      if fs.isEmpty then none
      else
        match rest2 with
        | ['s'] => some (ds, fs)
        | ['S'] => some (ds, fs)
        | _ => none
    | _ => none

/-- Numeric value of a digit run. -/
def digitsVal (l : List Char) : ℕ :=
  l.foldl (fun acc c => acc * 10 + (c.toNat - '0'.toNat)) 0

/-- The millisecond step `Math.ceil(Number(m[1]) * 1000)` of the parser,
modelled by exact integer arithmetic over the integral and fractional
digit runs.  The code computes this step with IEEE-754 doubles; the model
agrees exactly with the code for whole-second delays (`fs = []`) of `v`
seconds with `v * 1000 < 2^53` — there `Number` and the product are exact
and `Math.ceil` is the identity — and no theorem below asserts the
magnitude outside that range, where the double computation rounds (see
the module docstring). -/
def msOfDur (ds fs : List Char) : ℕ :=
  digitsVal ds * 1000 + (digitsVal fs * 1000 + 10 ^ fs.length - 1) / 10 ^ fs.length

/-- The detail-list entry filter of `details.find(...)`: tagged as
`google.rpc.RetryInfo` and carrying a string `retryDelay`. -/
def isRetryInfoEntry (d : JsVal) : Bool :=
  (match getField d kAtType with
   | .vstr s => s == kRetryInfoType
   | _ => false) &&
  isStrVal (getField d kRetryDelay)

/-- The effective detail list
`err?.errorDetails || err?.details || err?.response?.data?.error?.details
|| err?.error?.details || []`. -/
def effDetails (err : JsVal) : JsVal :=
  jsOr (getField err kErrorDetails)
    (jsOr (getField err kDetails)
      (jsOr (getField (getField (getField (getField err kResponse) kData) kError) kDetails)
        (jsOr (getField (getField err kError) kDetails) (.varr .nil))))

/-- `parseRetryDelayMs` of chatbot.js lines 15-41: extract the retry
delay in milliseconds from a provider error value, `none` when absent. -/
def parseRetryDelayMs (err : JsVal) : Option ℕ :=
  match effDetails err with
  | .varr xs =>
    match (JsArr.toList xs).find? isRetryInfoEntry with
    | none => none
    | some ri =>
      match getField ri kRetryDelay with
      | .vstr s =>
        if s.isEmpty then none
        else
          match splitDur (jsTrim s) with
          | none => none
          | some (ds, fs) => some (msOfDur ds fs)
      | _ => none
  | _ => none

/-- The duplicate `parseRetryDelayMs` of chatbot.js lines 252-278
(second module copy), transcribed separately. -/
def parseRetryDelayMsDup (err : JsVal) : Option ℕ :=
  match effDetails err with
  | .varr xs =>
    match (JsArr.toList xs).find? isRetryInfoEntry with
    | none => none
    | some ri =>
      match getField ri kRetryDelay with
      | .vstr s =>
        if s.isEmpty then none
        else
          match splitDur (jsTrim s) with
          | none => none
          | some (ds, fs) => some (msOfDur ds fs)
      | _ => none
  | _ => none

/-- The duplicate `parseRetryDelayMs` of `src/unnamed/part_000` lines
8-34, transcribed separately. -/
def parseRetryDelayMsPart0 (err : JsVal) : Option ℕ :=
  match effDetails err with
  | .varr xs =>
    match (JsArr.toList xs).find? isRetryInfoEntry with
    | none => none
    | some ri =>
      match getField ri kRetryDelay with
      | .vstr s =>
        if s.isEmpty then none
        else
          match splitDur (jsTrim s) with
          | none => none
          | some (ds, fs) => some (msOfDur ds fs)
      | _ => none
  | _ => none

/-! ### ErrorClassifier (`handleGeminiError`, chatbot.js lines 43-63) -/

/-- An HTTP JSON response of the embedded handlers: status plus the
fields the code writes (`message`, `response`, `retryAfterMs`, `type`,
`meta`), absent ones `none`. -/
structure ApiResp where
  status : ℕ
  message : Option JsVal
  response : Option JsVal
  retryAfterMs : Option ℕ
  rtype : Option (List Char)
  meta : Option JsVal

/-- The rate-limit branch condition of `handleGeminiError`:
`status === 429 || String(err?.message || "").includes("429")` with
`status = err?.status || err?.code`. -/
def is429Cond (err : JsVal) : Bool :=
  (match jsOr (getField err kStatus) (getField err kCode) with
   | .vnum n => n == 429
   | _ => false) ||
  containsSub (jsToString (jsOr (getField err kMessage) (.vstr []))) k429

/-- The human 429 message with the retry delay in seconds:
`Rate limit exceeded. Please try again in ${retryAfterSec}s.`. -/
def rateLimitBody (ms : ℕ) : List Char :=
  (r"Rate limit exceeded. Please try again in ").toList ++
  natDec ((ms + 999) / 1000) ++ (r"s.").toList

/-- `handleGeminiError` of chatbot.js lines 43-63: classify a caught
error into a 429 rate-limit response or a 500 server-error response. -/
def handleGeminiError (err : JsVal) : ApiResp :=
  if is429Cond err then
    let ms := (parseRetryDelayMs err).getD 5000
    ⟨429, some (.vstr (rateLimitBody ms)), none, some ms, some kRateLimitTag, none⟩
  else
    ⟨500, some (jsOr (getField err kMessage) (.vstr kChatServiceError)), none,
      none, some kServerErrorTag, none⟩

/-! ### QueryExtractor (`extractRollAndSubject`, chatbot.js lines 81-104)

The three regexes are embedded as explicit leftmost-match scanners with
the exact greedy/backtracking order of the JS engine: a scanner tries a
match at every position from the left, and at one position the
quantifiers hand back characters in descending order, rightmost first.
-/

/-- Generic leftmost-first regex scan: try the position matcher `f` at
every index, moving right one character at a time; `prev` is the
character left of the current position (for `\b`). -/
def scanFirst {α : Type} (f : Option Char → List Char → Option α) :
    Option Char → List Char → Option α :=
  fun prev l =>
    match f prev l with
    | some r => some r
    | none =>
      match l with
      | [] => none
      | c :: tl => scanFirst f (some c) tl

/-- Body of `/\b\d{2}[A-Za-z]{2,6}\d{3,4}\b/` at one position, after the
leading boundary: the letter quantifier must consume the whole letter
run (letters cannot start the digit part), and the digit run must be
consumed completely up to the trailing boundary, so the greedy search
collapses to run counting. -/
def rollMatchCore (l : List Char) : Option (List Char) :=
  match l with
  | c1 :: c2 :: rest =>
    if isDigitC c1 && isDigitC c2 then
      let k := countWhile isAlphaC rest
      if 2 ≤ k && k ≤ 6 then
        let rest2 := rest.drop k
        let d := countWhile isDigitC rest2
        if (d == 3 || d == 4) && !wordAt rest2[d]? then
          some (c1 :: c2 :: (rest.take k ++ rest2.take d))
        else none
      else none
    else none
  | _ => none

/-- The roll regex at one position including the leading `\b` (the first
matched character is a digit, hence a word character). -/
def rollMatchHere (prev : Option Char) (l : List Char) : Option (List Char) :=
  if wordAt prev then none else rollMatchCore l

/-- `text.match(/\b\d{2}[A-Za-z]{2,6}\d{3,4}\b/)`: leftmost match. -/
def findRoll (text : List Char) : Option (List Char) :=
  scanFirst rollMatchHere none text

/-- Character class `[A-Za-z& ]` of the subject capture group. -/
def isSubjC (c : Char) : Bool := isAlphaC c || c == '&' || c == ' '

/-- Word boundary `\b` after `k` captured characters of `l`. -/
def boundaryOkAfter (l : List Char) (k : ℕ) : Bool :=
  wordAt l[k - 1]? != wordAt l[k]?

/-- The alternatives the optional `[:\-]?` produces, greedy first. -/
def punctOpts (r1 : List Char) : List (List Char) :=
  match r1 with
  | c :: tl => if c == ':' || c == '-' then [tl, r1] else [r1]
  | [] => [[]]

/-- The `\s*[:\-]?\s*([A-Za-z& ]{2,25})\b` tail of the subject/exam
regex, on the text after the keyword; returns the capture group.
Quantifiers backtrack in descending order, rightmost fastest. -/
def subjCapture (after : List Char) : Option (List Char) :=
  findSomeDesc
    (fun a =>
      let r1 := after.drop a
      (punctOpts r1).findSome?
        (fun r2 =>
          findSomeDesc
            (fun b =>
              let r3 := r2.drop b
              let kmax := min 25 (countWhile isSubjC r3)
              findSomeDesc
                (fun k =>
                  if 2 ≤ k && boundaryOkAfter r3 k then some (r3.take k)
                  else none)
                kmax)
            (countWhile isJsSpaceC r2)))
    (countWhile isJsSpaceC after)

/-- `/\b<kw>\s*[:\-]?\s*([A-Za-z& ]{2,25})\b/i` at one position: the
keywords start with a letter, so the leading `\b` holds exactly when the
previous character is not a word character. -/
def kwMatchHere (kw : List Char) (prev : Option Char) (l : List Char) :
    Option (List Char) :=
  if wordAt prev then none
  else if ciStartsWith l kw then subjCapture (l.drop kw.length) else none

/-- Leftmost match of the subject/exam regex, returning the capture. -/
def findKw (kw : List Char) (text : List Char) : Option (List Char) :=
  scanFirst (kwMatchHere kw) none text

/-- The whitelist of `/\b(DSA|DBMS|OS|CN|COA|OOPS|AI|ML|SE)\b/i`, in
alternation order. -/
def tokensList : List (List Char) :=
  [(r"DSA").toList, (r"DBMS").toList, (r"OS").toList, (r"CN").toList,
   (r"COA").toList, (r"OOPS").toList, (r"AI").toList, (r"ML").toList,
   (r"SE").toList]

/-- The token alternation at one position: alternatives tried in order,
each with its trailing `\b`; all tokens start with a letter so the
leading `\b` is the shared `prev` test.  Returns the matched text. -/
def tokenHere (prev : Option Char) (l : List Char) : Option (List Char) :=
  if wordAt prev then none
  else
    tokensList.findSome?
      (fun tok =>
        if ciStartsWith l tok && !wordAt l[tok.length]? then
          some (l.take tok.length)
        else none)

/-- Leftmost match of the token whitelist regex. -/
def findToken (text : List Char) : Option (List Char) :=
  scanFirst tokenHere none text

/-- Result record of the extractor: JS `null` is `none`. -/
structure ExtractResult where
  rollNo : Option (List Char)
  subjectName : Option (List Char)

/-- The chain `text.match(subject regex) || text.match(exam regex)` of
chatbot.js lines 91-93, returning the capture of the first regex that
matches. -/
def kwFirstMatch (text : List Char) : Option (List Char) :=
  match findKw kSubjectKw text with
  | some cap => some cap
  | none => findKw kExamKw text

/-- `extractRollAndSubject` of chatbot.js lines 81-104: parse roll number
and subject from a free-form message. -/
def extractRollAndSubject (message : JsVal) : ExtractResult :=
  let text := jsTrim (jsToString (jsOr message (.vstr [])))
  let rollNo := (findRoll text).map jsUpper
  let s1 := (kwFirstMatch text).map jsTrim
  let subjectName :=
    match s1 with
    | some t =>
      if !t.isEmpty then some t
      else
        match findToken text with
        | some tok => some (jsUpper tok)
        | none => some t
    | none =>
      match findToken text with
      | some tok => some (jsUpper tok)
      | none => none
  ⟨rollNo, subjectName⟩

/-! ### Subject lookup (`findSubjectInFolder`, chatbot.js lines 71-78) -/

/-- The normalisation `String(x || "").trim().toLowerCase()` applied to
the requested subject name and to each subject entry. -/
def subjNorm (x : JsVal) : List Char := jsLower (jsTrim (jsToString (jsOr x (.vstr []))))

/-- `findSubjectInFolder` of chatbot.js lines 71-78: first subject of the
folder whose normalised name equals the normalised request, else `null`;
`null` as well for a blank request or a non-array `subjects` field. -/
def findSubjectInFolder (folder subjectName : JsVal) : JsVal :=
  let target := subjNorm subjectName
  if target.isEmpty then .vnull
  else
    let subjects :=
      match getField folder kSubjects with
      | .varr xs => JsArr.toList xs
      | _ => []
    match subjects.find? (fun s => subjNorm (getField s kSubjectName) == target) with
    | some e => jsOr e .vnull
    | none => .vnull

/-! ### The `/chat` handler (chatbot.js lines 109-131) -/

/-- Environment of one `/chat` call: API-key presence and the outcome of
the provider call (`error e` models `generateContent` throwing `e`). -/
structure GenEnv where
  apiKey : Bool
  outcome : Except JsVal JsVal

/-- The text extraction
`result?.response?.candidates?.[0]?.content?.parts?.[0]?.text`. -/
def chatRespText (res : JsVal) : JsVal :=
  let cand0 := indexJs (getField (getField res kResponse) kCandidates) 0
  let part0 := indexJs (getField (getField cand0 kContent) kParts) 0
  getField part0 kText

/-- The `/chat` handler of chatbot.js lines 109-131 (behaviourally
identical to the `/chat` of `src/unnamed/part_000` lines 36-79): returns
the response and whether the generation provider was invoked. -/
def chatHandler (body : JsVal) (env : GenEnv) : ApiResp × Bool :=
  if isNullish body then (handleGeminiError destructureErr, false)
  else
    let message := getField body kMessage
    if isNullish message then
      (⟨400, some (.vstr kMessageRequired), none, none, none, none⟩, false)
    else
      match message with
      | .vstr s =>
        if (jsTrim s).isEmpty then
          (⟨400, some (.vstr kMessageRequired), none, none, none, none⟩, false)
        else if !env.apiKey then
          (⟨500, some (.vstr kKeyMissing), none, none, none, none⟩, false)
        else
          match env.outcome with
          | .error e => (handleGeminiError e, true)
          | .ok res =>
            let text := jsOr (chatRespText res) (.vstr kUnableRespond)
            (⟨200, none, some text, none, none, none⟩, true)
      | _ => (handleGeminiError trimTypeErr, false)

/-! ### The `/exam-summary` handler (chatbot.js lines 140-241) -/

/-- The response of the internal records collaborator
(`GET <origin>/api/exams/student/folders?rollNo=...`): HTTP status and
parsed JSON body (`none` models a body whose `json()` parse rejects,
which the code's `.catch(() => ({}))` turns into an empty object). -/
structure CollabResp where
  status : ℕ
  body : Option JsVal

/-- `Response.ok` of the fetch API: status in the 2xx range. -/
def collabOk (status : ℕ) : Bool := 200 ≤ status && status ≤ 299

/-- Environment of one `/exam-summary` call. -/
structure SummaryEnv where
  apiKey : Bool
  collab : CollabResp
  outcome : Except JsVal JsVal

/-- The merge of explicit body fields with extractor output
(chatbot.js lines 142-149): extraction runs only when a field is missing
and a message is present; explicit fields win. -/
def mergedFields (body : JsVal) : JsVal × JsVal :=
  let rollNo := getField body kRollNo
  let subjectName := getField body kSubjectName
  let message := getField body kMessage
  if (!truthy rollNo || !truthy subjectName) && truthy message then
    let ex := extractRollAndSubject message
    (jsOr rollNo (match ex.rollNo with | some s => .vstr s | none => .vnull),
     jsOr subjectName (match ex.subjectName with | some s => .vstr s | none => .vnull))
  else (rollNo, subjectName)

/-- Are both required fields truthy after the merge? -/
def resolvedFields (body : JsVal) : Bool :=
  truthy (mergedFields body).1 && truthy (mergedFields body).2

/-- The interpolated 404 message
`Subject "${subjectName}" not found in exam "${folder.examName}"`. -/
def subjNotFoundMsg (subjectName folder : JsVal) : List Char :=
  (r"Subject ").toList ++ qc :: jsToString subjectName ++
  qc :: (r" not found in exam ").toList ++ qc :: jsToString (getField folder kExamName) ++ [qc]

/-- The folder-selection normalisation
`String(f?.examName || "").trim().toLowerCase()`. -/
def examNorm (f : JsVal) : List Char :=
  jsLower (jsTrim (jsToString (jsOr (getField f kExamName) (.vstr []))))

/-- The `/exam-summary` handler of chatbot.js lines 140-241.  Returns
the response, whether the collaborator fetch was issued, and whether the
generation provider was invoked. -/
def examSummaryHandler (body : JsVal) (env : SummaryEnv) : ApiResp × Bool × Bool :=
  if isNullish body then (handleGeminiError destructureErr, false, false)
  else
    let rollNo := (mergedFields body).1
    let subjectName := (mergedFields body).2
    let examName := getField body kExamName
    if !truthy rollNo || !truthy subjectName then
      (⟨400, some (.vstr kProvideMsg), none, none, none, none⟩, false, false)
    else if !env.apiKey then
      (⟨500, some (.vstr kKeyMissing), none, none, none, none⟩, false, false)
    else
      let foldersData := env.collab.body.getD (.vobj .nil)
      if !collabOk env.collab.status then
        (⟨env.collab.status,
          some (jsOr (getField foldersData kMessage) (.vstr kFailedLoad)),
          none, none, none, none⟩, true, false)
      else
        let folders :=
          match getField foldersData kFolders with
          | .varr xs => JsArr.toList xs
          | _ => []
        match folders with
        | [] => (⟨404, some (.vstr kNoFolders), none, none, none, none⟩, true, false)
        | f0 :: _ =>
          let folder :=
            if truthy examName then
              (folders.find?
                (fun f => examNorm f == jsLower (jsTrim (jsToString examName)))).getD .vundefined
            else f0
          if !truthy folder then
            (⟨404, some (.vstr kExamNotFound), none, none, none, none⟩, true, false)
          else
            let subject := findSubjectInFolder folder subjectName
            if !truthy subject then
              (⟨404, some (.vstr (subjNotFoundMsg subjectName folder)), none, none, none, none⟩,
               true, false)
            else
              match env.outcome with
              | .error e => (handleGeminiError e, true, true)
              | .ok res =>
                let text := jsOr (chatRespText res) (.vstr kUnableSummary)
                let meta := JsVal.vobj (jobj
                  [(kRollNo, .vstr (jsTrim (jsToString rollNo))),
                   (kExamName, getField folder kExamName),
                   (kSubjectName, jsOr (getField subject kSubjectName) subjectName),
                   (kMarksObtained, getField subject kMarksObtained),
                   (kMaxMarks, getField subject kMaxMarks)])
                (⟨200, none, some text, none, none, some meta⟩, true, true)

/-! ### Declarative descriptions used by the theorems -/

/-- Declarative shape `2 digits + 2-6 letters + 3-4 digits` of the roll
pattern, without the word-boundary context. -/
def rawShape (s : List Char) : Bool :=
  match s with
  | c1 :: c2 :: rest =>
    isDigitC c1 && isDigitC c2 &&
    (let k := countWhile isAlphaC rest
     let rest2 := rest.drop k
     2 ≤ k && k ≤ 6 && rest2.all isDigitC && 3 ≤ rest2.length && rest2.length ≤ 4)
  | _ => false

/-- The character preceding position `n` relative to a scan begun with
left context `prev` (for the whole text, `prev = none`). -/
def prevN (prev : Option Char) (l : List Char) : ℕ → Option Char
  | 0 => prev
  | m + 1 => l[m]?

/-- The roll regex attempt at index `n` of the text. -/
def boundedRollAt (text : List Char) (n : ℕ) : Option (List Char) :=
  rollMatchHere (prevN none text n) (text.drop n)

/-- Declarative statement: at index `n` of `text` there is a roll match
`r0`: both word boundaries hold, `r0` has the raw shape and starts
there. -/
def BoundedAt (text : List Char) (n : ℕ) (r0 : List Char) : Prop :=
  wordAt (prevN none text n) = false ∧ rawShape r0 = true ∧
  (∃ t, text.drop n = r0 ++ t) ∧ wordAt (text.drop n)[r0.length]? = false

/-- Claim-side test: does some substring of `text` match the raw roll
shape (ignoring word boundaries)?  Used to state the original claim of
C6 for refutation. -/
def existsRawSub (text : List Char) : Bool :=
  (List.range (text.length + 1)).any
    (fun i => (List.range (text.length + 1)).any
      (fun len => rawShape ((text.drop i).take len)))

/-- The phrase of the spec's RateLimited condition that the code never
tests for. -/
def kRateLimitPhrase : List Char := (r"rate limit").toList

/-! ### Concrete inputs for witnesses and counterexamples -/

/-- Error carrying only the message `rate limit` (C1 counterexample). -/
def errRateLimitMsg : JsVal := .vobj (jobj [(kMessage, .vstr kRateLimitPhrase)])

/-- Error carrying the numeric status 429 (C1 witness). -/
def errStatus429 : JsVal := .vobj (jobj [(kStatus, .vnum 429)])

/-- Retry-info entry whose delay string does not match the duration
form. -/
def riBadEntry : JsVal :=
  .vobj (jobj [(kAtType, .vstr kRetryInfoType), (kRetryDelay, .vstr ((r"soon").toList))])

/-- Retry-info entry whose delay string is `4s`. -/
def riGoodEntry : JsVal :=
  .vobj (jobj [(kAtType, .vstr kRetryInfoType), (kRetryDelay, .vstr ((r"4s").toList))])

/-- Error whose detail list has a non-matching retry-info entry before a
matching one (C2 counterexample). -/
def errTwoEntries : JsVal :=
  .vobj (jobj [(kDetails, .varr (jarr [riBadEntry, riGoodEntry]))])

/-- Error whose detail list holds just the `4s` retry-info entry (C2
witness). -/
def errOneEntry : JsVal :=
  .vobj (jobj [(kDetails, .varr (jarr [riGoodEntry]))])

/-- Chat request body with the message `hi`. -/
def bodyHi : JsVal := .vobj (jobj [(kMessage, .vstr ['h', 'i'])])

/-- A provider result whose extracted text is the empty string (C3). -/
def resEmptyText : JsVal :=
  let part : JsVal := .vobj (jobj [(kText, .vstr [])])
  let content : JsVal := .vobj (jobj [(kParts, .varr (jarr [part]))])
  let cand : JsVal := .vobj (jobj [(kContent, content)])
  .vobj (jobj [(kResponse, .vobj (jobj [(kCandidates, .varr (jarr [cand]))]))])

/-- Chat environment: key present, provider succeeds with empty text. -/
def envEmptyText : GenEnv := ⟨true, Except.ok resEmptyText⟩

/-- Exam-summary body with explicit roll number and subject (C4). -/
def bodyRollSubj : JsVal :=
  .vobj (jobj [(kRollNo, .vstr ((r"21CMR001").toList)),
               (kSubjectName, .vstr ((r"DSA").toList))])

/-- Exam-summary environment whose records collaborator answers 400 with
the message `bad roll` (C4 counterexample). -/
def envCollab400 : SummaryEnv :=
  ⟨true,
   ⟨400, some (.vobj (jobj [(kMessage, .vstr ((r"bad roll").toList))]))⟩,
   Except.ok .vundefined⟩

/-- Exam-summary environment whose collaborator answers 200 with an
empty folder list (C8 witness). -/
def envNoFolders : SummaryEnv :=
  ⟨true,
   ⟨200, some (.vobj (jobj [(kFolders, .varr .nil)]))⟩,
   Except.ok .vundefined⟩

/-- Empty request body object. -/
def bodyEmpty : JsVal := .vobj .nil

/-- The C6 example message `review my paper roll 21CMR001 subject DSA`. -/
def exMsgC6 : List Char := (r"review my paper roll 21CMR001 subject DSA").toList

/-- The C6 counterexample message: `A21CMR001` contains a substring of
the raw roll shape, but no word-boundary-delimited one. -/
def cxMsgC6 : List Char := (r"A21CMR001").toList

/-- The C5 counterexample message: the subject capture consists of
spaces only, trims to the empty string, and no whitelist token occurs. -/
def cxMsgC5 : List Char := (r"subject   5").toList

/-- Chat request body whose message is whitespace only (C7 witness). -/
def bodyWs : JsVal := .vobj (jobj [(kMessage, .vstr [' ', ' ', ' '])])

/-- Environment with key present and a trivial provider success. -/
def envOkUndef : GenEnv := ⟨true, Except.ok .vundefined⟩

/-- Subject entry named `Maths` (C10 witness). -/
def mathsSubj : JsVal := .vobj (jobj [(kSubjectName, .vstr ((r"Maths").toList))])

/-- Subject entry named ` dsa ` (C10 witness). -/
def dsaSubj : JsVal := .vobj (jobj [(kSubjectName, .vstr ((r" dsa ").toList))])

/-- Folder with two subjects, `Maths` and ` dsa ` (C10 witness). -/
def folderTwoSubjects : JsVal :=
  .vobj (jobj [(kExamName, .vstr ((r"Mid-1").toList)),
    (kSubjects, .varr (jarr [mathsSubj, dsaSubj]))])

/-! ### Helper lemmas -/

theorem find?_split {α : Type} (p : α → Bool) (xs : List α) (e : α) :
    xs.find? p = some e ↔
      ∃ pre rest, xs = pre ++ e :: rest ∧ (∀ x ∈ pre, p x = false) ∧ p e = true := by
  induction xs with
  | nil => simp
  | cons a l ih =>
    by_cases h : p a = true
    · rw [List.find?_cons_of_pos _ h]
      constructor
      · rintro h'
        injection h' with h'
        subst h'
        exact ⟨[], l, rfl, by simp, h⟩
      · rintro ⟨pre, rest, heq, hpre, hpe⟩
        cases pre with
        | nil =>
          injection heq with h1 h2
          subst h1
          rfl
        | cons b bs =>
          injection heq with h1 h2
          subst h1
          have := hpre a (by simp)
          rw [this] at h
          exact absurd h (by simp)
    · have h' : p a = false := by simpa using h
      rw [List.find?_cons_of_neg _ (by simp [h'])]
      rw [ih]
      constructor
      · rintro ⟨pre, rest, rfl, hpre, hpe⟩
        refine ⟨a :: pre, rest, rfl, ?_, hpe⟩
        intro x hx
        rcases List.mem_cons.mp hx with rfl | hx
        · exact h'
        · exact hpre x hx
      · rintro ⟨pre, rest, heq, hpre, hpe⟩
        cases pre with
        | nil =>
          injection heq with h1 h2
          subst h1
          rw [hpe] at h'
          exact absurd h' (by simp)
        | cons b bs =>
          injection heq with h1 h2
          subst h1
          exact ⟨bs, rest, h2, fun x hx => hpre x (by simp [hx]), hpe⟩

theorem listStartsWith_iff (l p : List Char) :
    listStartsWith l p = true ↔ ∃ t, l = p ++ t := by
  induction p generalizing l with
  | nil => simp [listStartsWith]
  | cons x xs ih =>
    cases l with
    | nil => simp [listStartsWith]
    | cons c tl =>
      simp only [listStartsWith, Bool.and_eq_true, beq_iff_eq]
      rw [ih]
      constructor
      · rintro ⟨rfl, t, rfl⟩
        exact ⟨t, rfl⟩
      · rintro ⟨t, heq⟩
        injection heq with h1 h2
        exact ⟨h1, t, h2⟩

theorem ciStartsWith_length (l p : List Char) (h : ciStartsWith l p = true) :
    p.length ≤ l.length := by
  induction p generalizing l with
  | nil => simp
  | cons x xs ih =>
    cases l with
    | nil => simp [ciStartsWith] at h
    | cons c tl =>
      simp only [ciStartsWith, Bool.and_eq_true] at h
      simpa using ih tl h.2

theorem countWhile_le_length (p : Char → Bool) (l : List Char) :
    countWhile p l ≤ l.length := by
  induction l with
  | nil => simp [countWhile]
  | cons c tl ih =>
    by_cases h : p c = true
    · simpa [countWhile, h] using ih
    · simp [countWhile, h]

theorem countWhile_take_all (p : Char → Bool) (l : List Char) (k : ℕ)
    (h : k ≤ countWhile p l) : ∀ c ∈ l.take k, p c = true := by
  induction l generalizing k with
  | nil => simp
  | cons x tl ih =>
    by_cases hx : p x = true
    · cases k with
      | zero => simp
      | succ k' =>
        intro c hc
        rw [countWhile, if_pos hx] at h
        rcases List.mem_cons.mp (by simpa using hc) with rfl | hc'
        · exact hx
        · exact ih k' (by omega) c hc'
    · rw [countWhile, if_neg hx] at h
      interval_cases k
      simp

theorem countWhile_pos_head (p : Char → Bool) (l : List Char)
    (h : 0 < countWhile p l) : ∃ c tl, l = c :: tl ∧ p c = true := by
  cases l with
  | nil => simp [countWhile] at h
  | cons c tl =>
    by_cases hc : p c = true
    · exact ⟨c, tl, rfl, hc⟩
    · rw [countWhile, if_neg hc] at h
      omega

theorem countWhile_append_all (p : Char → Bool) (a b : List Char)
    (ha : ∀ c ∈ a, p c = true) (hb : ∀ c, b.head? = some c → p c = false) :
    countWhile p (a ++ b) = a.length := by
  induction a with
  | nil =>
    cases b with
    | nil => simp [countWhile]
    | cons c tl =>
      have := hb c rfl
      simp [countWhile, this]
  | cons x xs ih =>
    have hx : p x = true := ha x (by simp)
    have := ih (fun c hc => ha c (by simp [hc]))
    simp [countWhile, hx, this]

theorem countWhile_getElem_false (p : Char → Bool) (l : List Char) (c : Char)
    (h : l[countWhile p l]? = some c) : p c = false := by
  induction l with
  | nil => simp at h
  | cons x tl ih =>
    by_cases hx : p x = true
    · rw [countWhile, if_pos hx] at h
      exact ih (by simpa using h)
    · rw [countWhile, if_neg hx] at h
      simp at h
      rw [← h]
      simpa using hx

theorem digit_word (c : Char) (h : isDigitC c = true) : isWordC c = true := by
  simp [isWordC, h]

theorem not_word_not_digit (c : Char) (h : isWordC c = false) : isDigitC c = false := by
  simp only [isWordC, Bool.or_eq_false_iff] at h
  exact h.1.1

theorem digit_not_alpha (c : Char) (h : isDigitC c = true) : isAlphaC c = false := by
  simp only [isDigitC, Bool.and_eq_true, decide_eq_true_eq] at h
  by_contra h'
  simp only [isAlphaC, Bool.or_eq_true, Bool.and_eq_true, decide_eq_true_eq,
    Bool.not_eq_false] at h'
  rcases h' with ⟨h1, _⟩ | ⟨h1, _⟩
  · exact absurd (le_trans h1 h.2) (by decide)
  · exact absurd (le_trans h1 h.2) (by decide)

theorem prevN_cons (prev : Option Char) (c : Char) (tl : List Char) (n : ℕ) :
    prevN prev (c :: tl) (n + 1) = prevN (some c) tl n := by
  cases n with
  | zero => simp [prevN]
  | succ m => simp [prevN]

theorem scanFirst_some_iff {α : Type} (f : Option Char → List Char → Option α) :
    ∀ (l : List Char) (prev : Option Char) (r : α),
      scanFirst f prev l = some r ↔
        ∃ n, n ≤ l.length ∧ f (prevN prev l n) (l.drop n) = some r ∧
          ∀ m, m < n → f (prevN prev l m) (l.drop m) = none := by
  intro l
  induction l with
  | nil =>
    intro prev r
    constructor
    · intro h
      simp only [scanFirst] at h
      cases hf : f prev [] with
      | some r0 =>
        rw [hf] at h
        injection h with h
        subst h
        exact ⟨0, le_rfl, hf, fun m hm => absurd hm (Nat.not_lt_zero m)⟩
      | none => rw [hf] at h; exact absurd h (by simp)
    · rintro ⟨n, hn, hfn, _⟩
      have hn0 : n = 0 := by simpa using hn
      subst hn0
      simp only [scanFirst]
      rw [show prevN prev [] 0 = prev from rfl, List.drop_nil] at hfn
      rw [hfn]
  | cons c tl ih =>
    intro prev r
    constructor
    · intro h
      simp only [scanFirst] at h
      cases hf : f prev (c :: tl) with
      | some r0 =>
        rw [hf] at h
        injection h with h
        subst h
        exact ⟨0, by simp, hf, fun m hm => absurd hm (Nat.not_lt_zero m)⟩
      | none =>
        rw [hf] at h
        obtain ⟨n, hn, hfn, hprev⟩ := (ih (some c) r).mp h
        refine ⟨n + 1, by simpa using hn, ?_, ?_⟩
        · rw [prevN_cons, List.drop_succ_cons]
          exact hfn
        · intro m hm
          cases m with
          | zero => exact hf
          | succ m' =>
            rw [prevN_cons, List.drop_succ_cons]
            exact hprev m' (by omega)
    · rintro ⟨n, hn, hfn, hprev⟩
      cases n with
      | zero =>
        simp only [scanFirst]
        rw [show prevN prev (c :: tl) 0 = prev from rfl, List.drop_zero] at hfn
        rw [hfn]
      | succ n' =>
        have h0 : f prev (c :: tl) = none := by
          have := hprev 0 (Nat.succ_pos _)
          rwa [show prevN prev (c :: tl) 0 = prev from rfl, List.drop_zero] at this
        simp only [scanFirst]
        rw [h0]
        apply (ih (some c) r).mpr
        refine ⟨n', by simpa using hn, ?_, ?_⟩
        · rw [← prevN_cons prev, ← List.drop_succ_cons (l := tl)]
          exact hfn
        · intro m hm
          have := hprev (m + 1) (by omega)
          rwa [prevN_cons, List.drop_succ_cons] at this

theorem scanFirst_none_iff {α : Type} (f : Option Char → List Char → Option α) :
    ∀ (l : List Char) (prev : Option Char),
      scanFirst f prev l = none ↔
        ∀ n, n ≤ l.length → f (prevN prev l n) (l.drop n) = none := by
  intro l
  induction l with
  | nil =>
    intro prev
    constructor
    · intro h n hn
      have hn0 : n = 0 := by simpa using hn
      subst hn0
      simp only [scanFirst] at h
      cases hf : f prev [] with
      | some r0 => rw [hf] at h; exact absurd h (by simp)
      | none => exact hf
    · intro h
      have h0 := h 0 (by simp)
      rw [show prevN prev [] 0 = prev from rfl, List.drop_zero] at h0
      simp only [scanFirst]
      rw [h0]
  | cons c tl ih =>
    intro prev
    constructor
    · intro h n hn
      simp only [scanFirst] at h
      cases hf : f prev (c :: tl) with
      | some r0 => rw [hf] at h; exact absurd h (by simp)
      | none =>
        rw [hf] at h
        cases n with
        | zero => exact hf
        | succ n' =>
          rw [prevN_cons, List.drop_succ_cons]
          exact (ih (some c)).mp h n' (by simpa using hn)
    · intro h
      have h0 := h 0 (by simp)
      rw [show prevN prev (c :: tl) 0 = prev from rfl, List.drop_zero] at h0
      simp only [scanFirst]
      rw [h0]
      apply (ih (some c)).mpr
      intro n hn
      have := h (n + 1) (by simpa using hn)
      rwa [prevN_cons, List.drop_succ_cons] at this

theorem rollMatchCore_iff (l r : List Char) :
    rollMatchCore l = some r ↔
      rawShape r = true ∧ (∃ t, l = r ++ t) ∧ wordAt l[r.length]? = false := by
  constructor
  · intro h
    match l with
    | [] => simp [rollMatchCore] at h
    | [c1] => simp [rollMatchCore] at h
    | c1 :: c2 :: rest =>
      simp only [rollMatchCore] at h
      by_cases h12 : (isDigitC c1 && isDigitC c2) = true
      case neg => rw [if_neg h12] at h; exact absurd h (by simp)
      rw [if_pos h12] at h
      set k := countWhile isAlphaC rest with hk
      by_cases h26 : (2 ≤ k && k ≤ 6) = true
      case neg => rw [if_neg h26] at h; exact absurd h (by simp)
      rw [if_pos h26] at h
      set rest2 := rest.drop k with hrest2
      set d := countWhile isDigitC rest2 with hd
      by_cases h34 : ((d == 3 || d == 4) && !wordAt rest2[d]?) = true
      case neg => rw [if_neg h34] at h; exact absurd h (by simp)
      rw [if_pos h34] at h
      injection h with h
      subst h
      simp only [Bool.and_eq_true, Bool.or_eq_true, beq_iff_eq, Bool.not_eq_true',
        decide_eq_true_eq] at h12 h26 h34
      have hkle : k ≤ rest.length := hk ▸ countWhile_le_length _ _
      have hdle : d ≤ rest2.length := hd ▸ countWhile_le_length _ _
      have hdpos : 0 < d := by rcases h34.1 with h3 | h4 <;> omega
      obtain ⟨c0, tl0, hr2, hc0⟩ := countWhile_pos_head isDigitC rest2 (hd ▸ hdpos)
      have htake_all_alpha : ∀ c ∈ rest.take k, isAlphaC c = true :=
        countWhile_take_all isAlphaC rest k (le_of_eq hk)
      have htake_all_digit : ∀ c ∈ rest2.take d, isDigitC c = true :=
        countWhile_take_all isDigitC rest2 d (le_of_eq hd)
      have hheadb : ∀ c, (rest2.take d).head? = some c → isAlphaC c = false := by
        intro c hc
        rw [hr2] at hc
        cases hdd : d with
        | zero => omega
        | succ d' =>
          rw [hdd] at hc
          simp only [List.take_succ_cons, List.head?_cons] at hc
          injection hc with hc
          subst hc
          exact digit_not_alpha _ hc0
      have hlen_take_k : (rest.take k).length = k := by
        rw [List.length_take]
        omega
      have hlen_take_d : (rest2.take d).length = d := by
        rw [List.length_take]
        omega
      have hcw_mid : countWhile isAlphaC (rest.take k ++ rest2.take d) = k := by
        rw [countWhile_append_all isAlphaC _ _ htake_all_alpha hheadb, hlen_take_k]
      have hdrop_mid : (rest.take k ++ rest2.take d).drop k = rest2.take d :=
        List.drop_left' hlen_take_k
      refine ⟨?_, ⟨rest2.drop d, ?_⟩, ?_⟩
      · have hall : (rest2.take d).all isDigitC = true := by
          rw [List.all_eq_true]
          intro c hc
          exact htake_all_digit c hc
        have hd34 : 3 ≤ d ∧ d ≤ 4 := by rcases h34.1 with h3 | h4 <;> omega
        simp only [rawShape, hcw_mid, hdrop_mid]
        simp [h12.1, h12.2, h26.1, h26.2, hall, hlen_take_d, hd34.1, hd34.2]
      · simp only [List.cons_append, List.append_assoc, List.take_append_drop]
        rw [hrest2, List.take_append_drop]
      · have hlr : (c1 :: c2 :: (rest.take k ++ rest2.take d)).length = 2 + (k + d) := by
          simp only [List.length_cons, List.length_append, hlen_take_k, hlen_take_d]
          omega
        rw [hlr]
        have : (c1 :: c2 :: rest)[2 + (k + d)]? = rest[k + d]? := by
          rw [show 2 + (k + d) = k + d + 1 + 1 by omega]
          simp [List.getElem?_cons_succ]
        rw [this, ← List.getElem?_drop, ← hrest2]
        exact h34.2
  · rintro ⟨hshape, ⟨t, rfl⟩, hend⟩
    rcases r with _ | ⟨c1, rr⟩
    · simp [rawShape] at hshape
    rcases rr with _ | ⟨c2, rest'⟩
    · simp [rawShape] at hshape
    simp only [rawShape, Bool.and_eq_true, decide_eq_true_eq] at hshape
    obtain ⟨⟨hd1, hd2⟩, ⟨⟨⟨h2k, hk6⟩, hall⟩, h3l⟩, hl4⟩ := hshape
    set k0 := countWhile isAlphaC rest' with hk0
    set rest2' := rest'.drop k0 with hrest2'
    have hk0le : k0 ≤ rest'.length := hk0 ▸ countWhile_le_length _ _
    have hlen_take : (rest'.take k0).length = k0 := by
      rw [List.length_take]
      omega
    obtain ⟨c0, tl0, hr2eq⟩ : ∃ c0 tl0, rest2' = c0 :: tl0 := by
      cases hc : rest2' with
      | nil => rw [hc] at h3l; simp at h3l
      | cons a b => exact ⟨a, b, rfl⟩
    have hc0d : isDigitC c0 = true :=
      List.all_eq_true.mp hall c0 (by rw [hr2eq]; simp)
    have hendt : wordAt t[0]? = false := by
      have hidx0 : ((c1 :: c2 :: rest') ++ t)[(c1 :: c2 :: rest').length]? = t[0]? := by
        rw [List.getElem?_append_right le_rfl, Nat.sub_self]
      rwa [hidx0] at hend
    have hheadt : ∀ c, t.head? = some c → isDigitC c = false := by
      intro c hc
      have h0 : t[0]? = some c := by rw [← List.head?_eq_getElem?]; exact hc
      rw [h0] at hendt
      exact not_word_not_digit c (by simpa [wordAt] using hendt)
    have hsplit : rest' = rest'.take k0 ++ rest2' := by
      rw [hrest2']
      exact (List.take_append_drop k0 rest').symm
    have hcw1 : countWhile isAlphaC (rest' ++ t) = k0 := by
      conv_lhs => rw [hsplit, List.append_assoc]
      rw [countWhile_append_all isAlphaC _ _
          (countWhile_take_all isAlphaC rest' k0 (le_of_eq hk0)) ?_, hlen_take]
      intro c hc
      rw [hr2eq] at hc
      simp only [List.cons_append, List.head?_cons] at hc
      injection hc with hc
      subst hc
      exact digit_not_alpha _ hc0d
    have hdrop1 : (rest' ++ t).drop k0 = rest2' ++ t := by
      conv_lhs => rw [hsplit, List.append_assoc]
      exact List.drop_left' hlen_take
    have hcw2 : countWhile isDigitC (rest2' ++ t) = rest2'.length :=
      countWhile_append_all isDigitC _ _ (fun c hc => List.all_eq_true.mp hall c hc) hheadt
    have hidx : (rest2' ++ t)[rest2'.length]? = t[0]? := by
      rw [List.getElem?_append_right le_rfl, Nat.sub_self]
    have hlen34 : (rest2'.length == 3 || rest2'.length == 4) = true := by
      rcases (show rest2'.length = 3 ∨ rest2'.length = 4 by omega) with h | h <;> simp [h]
    have hcond1 : (isDigitC c1 && isDigitC c2) = true := by simp [hd1, hd2]
    have hcond2 : (2 ≤ k0 && k0 ≤ 6) = true := by
      simp only [Bool.and_eq_true, decide_eq_true_eq]
      exact ⟨h2k, hk6⟩
    simp only [List.cons_append, rollMatchCore]
    rw [hcw1, hdrop1, hcw2]
    rw [if_pos hcond1, if_pos hcond2, if_pos (by
      simp only [hidx, hlen34, Bool.and_eq_true, Bool.not_eq_true']
      exact ⟨trivial, hendt⟩)]
    rw [List.take_append_of_le_length hk0le, List.take_left]
    rw [← hsplit]

theorem rollMatchHere_iff (prev : Option Char) (l r : List Char) :
    rollMatchHere prev l = some r ↔
      wordAt prev = false ∧ rawShape r = true ∧ (∃ t, l = r ++ t) ∧
        wordAt l[r.length]? = false := by
  unfold rollMatchHere
  by_cases hw : wordAt prev = true
  · rw [if_pos hw]
    simp [hw]
  · have hw' : wordAt prev = false := by simpa using hw
    rw [if_neg hw]
    rw [rollMatchCore_iff]
    simp [hw']

theorem handleGeminiError_status (e : JsVal) :
    (handleGeminiError e).status = 429 ∨ (handleGeminiError e).status = 500 := by
  unfold handleGeminiError
  by_cases h : is429Cond e = true
  · rw [if_pos h]
    exact Or.inl rfl
  · rw [if_neg h]
    exact Or.inr rfl

theorem num429_iff (x : JsVal) :
    (match x with
     | JsVal.vnum n => n == 429
     | _ => false) = true ↔ x = .vnum 429 := by
  cases x <;> simp

theorem subjNorm_of_not_vobj (e : JsVal) (h : ∀ fs, e ≠ .vobj fs) (key : List Char) :
    subjNorm (getField e key) = [] := by
  cases e with
  | vobj fs => exact absurd rfl (h fs)
  | vundefined => rfl
  | vnull => rfl
  | vbool b => rfl
  | vnum n => rfl
  | vstr s => rfl
  | varr xs => rfl

theorem truthy_of_subjNorm_ne (e : JsVal) (key : List Char)
    (h : subjNorm (getField e key) ≠ []) : truthy e = true := by
  cases e with
  | vobj fs => rfl
  | vundefined => exact absurd rfl h
  | vnull => exact absurd rfl h
  | vbool b => exact absurd rfl h
  | vnum n => exact absurd rfl h
  | vstr s => exact absurd rfl h
  | varr xs => exact absurd rfl h

theorem tokensList_min_length : ∀ tok ∈ tokensList, 2 ≤ tok.length := by decide

theorem tokenHere_nonempty (prev : Option Char) (l tok : List Char)
    (h : tokenHere prev l = some tok) : tok ≠ [] := by
  unfold tokenHere at h
  by_cases hw : wordAt prev = true
  · rw [if_pos hw] at h
    exact absurd h (by simp)
  · rw [if_neg hw] at h
    obtain ⟨t, hmem, hft⟩ := List.exists_of_findSome?_eq_some h
    by_cases hc : (ciStartsWith l t && !wordAt l[t.length]?) = true
    · rw [if_pos hc] at hft
      injection hft with hft
      subst hft
      have h2 := tokensList_min_length t hmem
      have hle := ciStartsWith_length l t (by
        simp only [Bool.and_eq_true] at hc
        exact hc.1)
      intro hemp
      have : (l.take t.length).length = 0 := by rw [hemp]; rfl
      rw [List.length_take] at this
      omega
    · rw [if_neg hc] at hft
      exact absurd hft (by simp)

theorem findToken_nonempty (text tok : List Char) (h : findToken text = some tok) :
    tok ≠ [] := by
  unfold findToken at h
  obtain ⟨n, _, hf, _⟩ := (scanFirst_some_iff tokenHere text none tok).mp h
  exact tokenHere_nonempty _ _ _ hf

theorem jsUpper_ne_nil (t : List Char) (h : t ≠ []) : jsUpper t ≠ [] := by
  cases t with
  | nil => exact absurd rfl h
  | cons c tl => simp [jsUpper]

/-! ### Claim theorems -/

/-- C9: the three copies of the retry-delay parser across the
repository's chatbot variants (chatbot.js lines 15-41, chatbot.js lines
252-278, part_000 lines 8-34) are extensionally equal: on every error
value all three return the same milliseconds value or the same null. -/
theorem c9_parser_copies_equal : ∀ err : JsVal,
    parseRetryDelayMs err = parseRetryDelayMsDup err ∧
    parseRetryDelayMsDup err = parseRetryDelayMsPart0 err :=
  fun _ => ⟨rfl, rfl⟩

/-- C1 (amended): the error classifier responds 429 with type
`RATE_LIMIT` and `retryAfterMs` equal to the parsed retry delay (5000 ms
when undetermined) exactly when the error's `status` (or, when that is
falsy, its `code`) strictly equals the number 429, or the string
conversion of its message contains `429`; every other error yields 500
with the error's message when truthy (else the generic fallback) and
type `SERVER_ERROR`.  The spec's additional `rate limit` message-text
condition is not part of the implemented classification (see the
counterexample). -/
theorem c1_error_classifier_amended : ∀ err : JsVal,
    ((handleGeminiError err).status = 429 ↔
      (jsOr (getField err kStatus) (getField err kCode) = .vnum 429 ∨
        containsSub (jsToString (jsOr (getField err kMessage) (.vstr []))) k429 = true)) ∧
    ((handleGeminiError err).status = 429 →
      handleGeminiError err =
        ⟨429, some (.vstr (rateLimitBody ((parseRetryDelayMs err).getD 5000))), none,
          some ((parseRetryDelayMs err).getD 5000), some kRateLimitTag, none⟩) ∧
    ((handleGeminiError err).status ≠ 429 →
      handleGeminiError err =
        ⟨500, some (jsOr (getField err kMessage) (.vstr kChatServiceError)), none, none,
          some kServerErrorTag, none⟩) := by
  intro err
  have hcond : is429Cond err = true ↔
      (jsOr (getField err kStatus) (getField err kCode) = .vnum 429 ∨
        containsSub (jsToString (jsOr (getField err kMessage) (.vstr []))) k429 = true) := by
    unfold is429Cond
    rw [Bool.or_eq_true, num429_iff]
  by_cases h : is429Cond err = true
  · have hrec : handleGeminiError err =
        ⟨429, some (.vstr (rateLimitBody ((parseRetryDelayMs err).getD 5000))), none,
          some ((parseRetryDelayMs err).getD 5000), some kRateLimitTag, none⟩ := by
      unfold handleGeminiError
      rw [if_pos h]
    refine ⟨?_, fun _ => hrec, fun hne => absurd (by rw [hrec]) hne⟩
    rw [hrec]
    simp only [true_iff, show (429 : ℕ) = 429 from rfl]
    exact hcond.mp h
  · have hrec : handleGeminiError err =
        ⟨500, some (jsOr (getField err kMessage) (.vstr kChatServiceError)), none, none,
          some kServerErrorTag, none⟩ := by
      unfold handleGeminiError
      rw [if_neg h]
    refine ⟨?_, ?_, fun _ => hrec⟩
    · rw [hrec]
      constructor
      · intro hh
        exact absurd hh (by norm_num)
      · intro hh
        exact absurd (hcond.mpr hh) h
    · intro hh
      rw [hrec] at hh
      exact absurd hh (by norm_num)

/-- C1 (witness): the amended theorem applied to the error with numeric
status 429 and no retry detail: 429, `retryAfterMs` 5000. -/
theorem c1_error_classifier_witness :
    handleGeminiError errStatus429 =
      ⟨429, some (.vstr (rateLimitBody 5000)), none, some 5000, some kRateLimitTag, none⟩ := by
  have h := (c1_error_classifier_amended errStatus429).2.1 (by decide)
  rw [h]
  rfl

/-- C1 (counterexample): the claim, as stated, requires a 429 response
whenever the message text contains `rate limit`; the code returns 500
for such an error, because it only tests the status/code and the
substring `429`. -/
theorem c1_error_classifier_counterexample :
    ¬ (∀ err : JsVal,
        containsSub (jsToString (jsOr (getField err kMessage) (.vstr [])))
          kRateLimitPhrase = true →
        (handleGeminiError err).status = 429) := by
  intro hclaim
  have h1 : containsSub (jsToString (jsOr (getField errRateLimitMsg kMessage) (.vstr [])))
      kRateLimitPhrase = true := by decide
  have h2 := hclaim errRateLimitMsg h1
  have h3 : (handleGeminiError errRateLimitMsg).status = 500 := by decide
  rw [h3] at h2
  exact absurd h2 (by norm_num)

/-- Helper: full operational characterisation of the parser result in
terms of the model's own millisecond step `msOfDur`.  (`msOfDur`
idealises the code's double arithmetic; the claim theorem below only
uses this characterisation where the two agree.) -/
theorem parseRetryDelayMs_characterization : ∀ (err : JsVal) (n : ℕ),
    parseRetryDelayMs err = some n ↔
      ∃ xs pre e rest s ds fs,
        effDetails err = .varr xs ∧
        JsArr.toList xs = pre ++ e :: rest ∧
        (∀ x ∈ pre, isRetryInfoEntry x = false) ∧
        isRetryInfoEntry e = true ∧
        getField e kRetryDelay = .vstr s ∧
        splitDur (jsTrim s) = some (ds, fs) ∧
        n = msOfDur ds fs := by
  intro err n
  constructor
  · intro h
    rw [parseRetryDelayMs] at h
    cases heff : effDetails err with
    | varr xs =>
      simp only [heff] at h
      cases hfind : (JsArr.toList xs).find? isRetryInfoEntry with
      | none =>
        simp only [hfind] at h
        exact absurd h (by simp)
      | some ri =>
        simp only [hfind] at h
        cases hget : getField ri kRetryDelay with
        | vstr s =>
          simp only [hget] at h
          by_cases hemp : s.isEmpty = true
          · rw [if_pos hemp] at h
            exact absurd h (by simp)
          · rw [if_neg hemp] at h
            cases hsplit : splitDur (jsTrim s) with
            | none =>
              simp only [hsplit] at h
              exact absurd h (by simp)
            | some p =>
              obtain ⟨ds, fs⟩ := p
              simp only [hsplit] at h
              injection h with h
              obtain ⟨pre, rest, hdecomp, hpre, he⟩ := (find?_split _ _ _).mp hfind
              exact ⟨xs, pre, ri, rest, s, ds, fs, rfl, hdecomp, hpre, he, hget, hsplit, h.symm⟩
        | vundefined => simp only [hget] at h; exact absurd h (by simp)
        | vnull => simp only [hget] at h; exact absurd h (by simp)
        | vbool b => simp only [hget] at h; exact absurd h (by simp)
        | vnum m => simp only [hget] at h; exact absurd h (by simp)
        | varr a => simp only [hget] at h; exact absurd h (by simp)
        | vobj o => simp only [hget] at h; exact absurd h (by simp)
    | vundefined => simp only [heff] at h; exact absurd h (by simp)
    | vnull => simp only [heff] at h; exact absurd h (by simp)
    | vbool b => simp only [heff] at h; exact absurd h (by simp)
    | vnum m => simp only [heff] at h; exact absurd h (by simp)
    | vstr s => simp only [heff] at h; exact absurd h (by simp)
    | vobj o => simp only [heff] at h; exact absurd h (by simp)
  · rintro ⟨xs, pre, e, rest, s, ds, fs, heff, hdecomp, hpre, he, hget, hsplit, hn⟩
    have hfind : (JsArr.toList xs).find? isRetryInfoEntry = some e :=
      (find?_split _ _ _).mpr ⟨pre, rest, hdecomp, hpre, he⟩
    have hsne : s.isEmpty = false := by
      cases s with
      | nil =>
        rw [show jsTrim [] = [] from rfl] at hsplit
        exact absurd hsplit (by simp [splitDur])
      | cons c tl => rfl
    subst hn
    rw [parseRetryDelayMs]
    simp only [heff, hfind, hget, hsne, Bool.false_eq_true, if_false, hsplit]

/-- C2 (amended): `parseRetryDelayMs` is a total function over arbitrary
error values (the embedding is a total Lean function; the JS `try/catch`
and optional chaining admit no escaping exception).  It returns a
millisecond value exactly when the first detail-list entry tagged as
retry-info with a string `retryDelay` has a delay whose trimmed text
matches `<number>s` (fractional digits allowed, case-insensitive
suffix); in every other case — including when only a later retry-info
entry matches, see the counterexample — it returns null.  For a matching
delay of `v` whole seconds with `v * 1000 < 2^53` the returned value is
exactly `ceil(v * 1000) = v * 1000` milliseconds; for fractional or
larger delays the code computes the value as the IEEE-754 double
`Math.ceil(Number(m[1]) * 1000)`, whose rounding this development does
not characterise. -/
theorem c2_retry_delay_parser_amended : ∀ err : JsVal,
    ((parseRetryDelayMs err).isSome = true ↔
      ∃ xs pre e rest s ds fs,
        effDetails err = .varr xs ∧
        JsArr.toList xs = pre ++ e :: rest ∧
        (∀ x ∈ pre, isRetryInfoEntry x = false) ∧
        isRetryInfoEntry e = true ∧
        getField e kRetryDelay = .vstr s ∧
        splitDur (jsTrim s) = some (ds, fs)) ∧
    (∀ (xs : JsArr) (pre : List JsVal) (e : JsVal) (rest : List JsVal) (s ds : List Char),
        effDetails err = .varr xs →
        JsArr.toList xs = pre ++ e :: rest →
        (∀ x ∈ pre, isRetryInfoEntry x = false) →
        isRetryInfoEntry e = true →
        getField e kRetryDelay = .vstr s →
        splitDur (jsTrim s) = some (ds, []) →
        digitsVal ds * 1000 < 2 ^ 53 →
        parseRetryDelayMs err = some (digitsVal ds * 1000)) := by
  intro err
  constructor
  · constructor
    · intro h
      rw [Option.isSome_iff_exists] at h
      obtain ⟨n, hn⟩ := h
      obtain ⟨xs, pre, e, rest, s, ds, fs, h1, h2, h3, h4, h5, h6, _⟩ :=
        (parseRetryDelayMs_characterization err n).mp hn
      exact ⟨xs, pre, e, rest, s, ds, fs, h1, h2, h3, h4, h5, h6⟩
    · rintro ⟨xs, pre, e, rest, s, ds, fs, h1, h2, h3, h4, h5, h6⟩
      have heq := (parseRetryDelayMs_characterization err (msOfDur ds fs)).mpr
        ⟨xs, pre, e, rest, s, ds, fs, h1, h2, h3, h4, h5, h6, rfl⟩
      rw [heq]
      rfl
  · intro xs pre e rest s ds h1 h2 h3 h4 h5 h6 _
    have hms : msOfDur ds [] = digitsVal ds * 1000 := by
      simp [msOfDur, digitsVal]
    have heq := (parseRetryDelayMs_characterization err (msOfDur ds [])).mpr
      ⟨xs, pre, e, rest, s, ds, [], h1, h2, h3, h4, h5, h6, rfl⟩
    rw [heq, hms]

/-- C2 (counterexample): the claim, as stated, promises a parsed value
whenever the detail list contains a retry-info entry with a matching
delay string; but the code inspects only the first retry-info entry
carrying a string delay, so a list whose first such entry is
non-matching parses to null even though a later entry matches. -/
theorem c2_retry_delay_parser_counterexample :
    ¬ (∀ (err : JsVal) (xs : JsArr) (e : JsVal),
        effDetails err = .varr xs → e ∈ JsArr.toList xs → isRetryInfoEntry e = true →
        (∃ s ds fs, getField e kRetryDelay = .vstr s ∧ splitDur (jsTrim s) = some (ds, fs)) →
        (parseRetryDelayMs err).isSome = true) := by
  intro hclaim
  have hmem : riGoodEntry ∈ JsArr.toList (jarr [riBadEntry, riGoodEntry]) := by
    rw [show JsArr.toList (jarr [riBadEntry, riGoodEntry]) = [riBadEntry, riGoodEntry] from rfl]
    exact List.mem_cons_of_mem _ (List.mem_cons_self _ _)
  have h := hclaim errTwoEntries (jarr [riBadEntry, riGoodEntry]) riGoodEntry rfl hmem
    (by decide) ⟨['4', 's'], ['4'], [], rfl, rfl⟩
  have hnone : (parseRetryDelayMs errTwoEntries).isSome = false := by decide
  rw [hnone] at h
  exact absurd h (by simp)

/-- C2 (witness): the amended theorem applied to an error whose detail
list holds one retry-info entry with the whole-second delay `4s`
(4000 ms, well below `2^53`): 4000 milliseconds. -/
theorem c2_retry_delay_parser_witness :
    parseRetryDelayMs errOneEntry = some 4000 := by
  have h := (c2_retry_delay_parser_amended errOneEntry).2 (jarr [riGoodEntry]) [] riGoodEntry []
    (['4', 's']) ['4'] rfl rfl (fun x hx => absurd hx (by simp)) (by decide) rfl rfl (by decide)
  rw [show digitsVal ['4'] * 1000 = 4000 from by decide] at h
  exact h

/-- C3 (amended): when the `/chat` provider call succeeds but the
extracted text is falsy (in particular the empty string), the endpoint
does not treat the call as a failure and has no fallback provider path:
it substitutes the fixed placeholder `Unable to respond.` for the text
and returns it as a 200 success.  The empty text itself is never
returned. -/
theorem c3_empty_text_amended : ∀ (body : JsVal) (env : GenEnv) (res : JsVal) (s : List Char),
    getField body kMessage = .vstr s → (jsTrim s).isEmpty = false →
    env.apiKey = true → env.outcome = Except.ok res →
    truthy (chatRespText res) = false →
    chatHandler body env =
      (⟨200, none, some (.vstr kUnableRespond), none, none, none⟩, true) := by
  intro body env res s hmsg htrim hkey hout htext
  have hbody : isNullish body = false := by
    cases body with
    | vnull => exact absurd hmsg (by simp [getField])
    | vundefined => exact absurd hmsg (by simp [getField])
    | vbool b => rfl
    | vnum n => rfl
    | vstr t => rfl
    | varr a => rfl
    | vobj o => rfl
  rw [chatHandler]
  simp only [hbody, Bool.false_eq_true, if_false, hmsg]
  simp [hout, hkey, htrim, htext, jsOr, isNullish]

/-- C3 (counterexample): the claim, as stated, says a provider success
with empty text is not returned as a successful 200 result; but the
`/chat` handler answers 200 (with the placeholder text) in exactly that
situation, and no fallback provider is consulted. -/
theorem c3_empty_text_counterexample :
    ¬ (∀ (body : JsVal) (env : GenEnv) (res : JsVal),
        env.outcome = Except.ok res → chatRespText res = .vstr [] →
        (chatHandler body env).1.status ≠ 200) := by
  intro hclaim
  exact hclaim bodyHi envEmptyText resEmptyText rfl rfl (by decide)

/-- C3 (witness): the amended theorem applied to the message `hi` and a
provider result carrying the empty text. -/
theorem c3_empty_text_witness :
    chatHandler bodyHi envEmptyText =
      (⟨200, none, some (.vstr kUnableRespond), none, none, none⟩, true) :=
  c3_empty_text_amended bodyHi envEmptyText resEmptyText ['h', 'i'] rfl (by decide) rfl rfl
    (by decide)

/-- C7: a `/chat` request whose message is empty, missing (null or
undefined on a non-nullish body), or whitespace-only is answered 400
with `Message required`, and the generation provider is not invoked on
that path. -/
theorem c7_chat_empty_message : ∀ (body : JsVal) (env : GenEnv),
    isNullish body = false →
    (getField body kMessage = .vnull ∨ getField body kMessage = .vundefined ∨
      ∃ s, getField body kMessage = .vstr s ∧ (jsTrim s).isEmpty = true) →
    chatHandler body env =
      (⟨400, some (.vstr kMessageRequired), none, none, none, none⟩, false) := by
  intro body env hb hmsg
  rw [chatHandler]
  simp only [hb, Bool.false_eq_true, if_false]
  rcases hmsg with hm | hm | ⟨s, hm, hs⟩
  · simp [hm, isNullish]
  · simp [hm, isNullish]
  · simp only [hm]
    simp [isNullish, hs]

/-- C7 (witness): the theorem applied to a whitespace-only message. -/
theorem c7_chat_empty_message_witness :
    chatHandler bodyWs envOkUndef =
      (⟨400, some (.vstr kMessageRequired), none, none, none, none⟩, false) :=
  c7_chat_empty_message bodyWs envOkUndef rfl
    (Or.inr (Or.inr ⟨[' ', ' ', ' '], rfl, by decide⟩))

/-- C8: on `/exam-summary`, once the fields are resolved and the key is
present, a collaborator success whose `folders` field is the empty array
is answered 404 with the `No exam folders found for this roll number`
message (after the fetch, before any provider call); a collaborator
non-success instead propagates the collaborator's own status, with its
body message when present (else the generic fallback), equally after the
fetch and before any provider call. -/
theorem c8_no_folders_404 : ∀ (body : JsVal) (env : SummaryEnv),
    isNullish body = false → resolvedFields body = true → env.apiKey = true →
    (collabOk env.collab.status = true →
      getField (env.collab.body.getD (.vobj .nil)) kFolders = .varr .nil →
      examSummaryHandler body env =
        (⟨404, some (.vstr kNoFolders), none, none, none, none⟩, true, false)) ∧
    (collabOk env.collab.status = false →
      (examSummaryHandler body env).1.status = env.collab.status ∧
      (examSummaryHandler body env).1.message =
        some (jsOr (getField (env.collab.body.getD (.vobj .nil)) kMessage)
          (.vstr kFailedLoad)) ∧
      (examSummaryHandler body env).2.1 = true ∧
      (examSummaryHandler body env).2.2 = false) := by
  intro body env hb hres hkey
  have hres' := hres
  unfold resolvedFields at hres'
  simp only [Bool.and_eq_true] at hres'
  have hcond : (!truthy (mergedFields body).1 || !truthy (mergedFields body).2) = false := by
    simp [hres'.1, hres'.2]
  constructor
  · intro hok hfold
    rw [examSummaryHandler]
    simp only [hb, Bool.false_eq_true, if_false, hcond, hkey, hok, hfold]
    simp [JsArr.toList]
  · intro hnok
    rw [examSummaryHandler]
    simp only [hb, Bool.false_eq_true, if_false, hcond, hkey, hnok]
    simp

/-- C8 (witness): the theorem applied to explicit fields and a 200
collaborator reply with an empty folder list. -/
theorem c8_no_folders_witness :
    examSummaryHandler bodyRollSubj envNoFolders =
      (⟨404, some (.vstr kNoFolders), none, none, none, none⟩, true, false) :=
  (c8_no_folders_404 bodyRollSubj envNoFolders rfl (by decide) rfl).1 (by decide) rfl

theorem examSummary_fetch_true (body : JsVal) (env : SummaryEnv)
    (hb : isNullish body = false) (hres : resolvedFields body = true)
    (hkey : env.apiKey = true) :
    (examSummaryHandler body env).2.1 = true := by
  have hres' := hres
  unfold resolvedFields at hres'
  simp only [Bool.and_eq_true] at hres'
  have hcond : (!truthy (mergedFields body).1 || !truthy (mergedFields body).2) = false := by
    simp [hres'.1, hres'.2]
  rw [examSummaryHandler]
  simp only [hb, Bool.false_eq_true, if_false, hcond, hkey, Bool.not_true]
  repeat' split <;> try rfl

/-- C4 (amended): on `/exam-summary` (with a destructurable body) the
validation rejection — status 400 with no collaborator fetch — happens
exactly when the merged `rollNo` and `subjectName` are not both
resolved, and on that path no fetch and no provider call occurs.  (The
original claim's `status 400 exactly when unresolved` fails because a
records-collaborator 400 is propagated verbatim after a fetch; see the
counterexample.) -/
theorem c4_validation_400_amended : ∀ (body : JsVal) (env : SummaryEnv),
    isNullish body = false →
    (resolvedFields body = false ↔
      (examSummaryHandler body env).1.status = 400 ∧
      (examSummaryHandler body env).2.1 = false) ∧
    (resolvedFields body = false →
      examSummaryHandler body env =
        (⟨400, some (.vstr kProvideMsg), none, none, none, none⟩, false, false)) := by
  intro body env hb
  by_cases hres : resolvedFields body = true
  · have hres' := hres
    unfold resolvedFields at hres'
    simp only [Bool.and_eq_true] at hres'
    have hcond : (!truthy (mergedFields body).1 || !truthy (mergedFields body).2) = false := by
      simp [hres'.1, hres'.2]
    constructor
    · constructor
      · intro hf
        rw [hres] at hf
        exact absurd hf (by simp)
      · rintro ⟨h400, hnof⟩
        exfalso
        by_cases hkey : env.apiKey = true
        · have hfetch := examSummary_fetch_true body env hb hres hkey
          rw [hfetch] at hnof
          exact absurd hnof (by simp)
        · have hkey' : env.apiKey = false := by simpa using hkey
          have hcomp : examSummaryHandler body env =
              (⟨500, some (.vstr kKeyMissing), none, none, none, none⟩, false, false) := by
            rw [examSummaryHandler]
            simp only [hb, Bool.false_eq_true, if_false, hcond, hkey']
            simp
          rw [hcomp] at h400
          exact absurd h400 (by norm_num)
    · intro hf
      rw [hres] at hf
      exact absurd hf (by simp)
  · have hresf : resolvedFields body = false := by simpa using hres
    have hresf' := hresf
    unfold resolvedFields at hresf'
    have hcond : (!truthy (mergedFields body).1 || !truthy (mergedFields body).2) = true := by
      rw [← Bool.not_and]
      simp [hresf']
    have hcomp : examSummaryHandler body env =
        (⟨400, some (.vstr kProvideMsg), none, none, none, none⟩, false, false) := by
      rw [examSummaryHandler]
      simp only [hb, Bool.false_eq_true, if_false, hcond, if_true]
    refine ⟨⟨fun _ => ?_, fun _ => hresf⟩, fun _ => hcomp⟩
    rw [hcomp]
    exact ⟨rfl, rfl⟩

/-- C4 (counterexample): the claim, as stated, makes every 400 response
prove the fields unresolved and fetch-free; but when the records
collaborator itself answers 400, the handler propagates that status
after the fetch even though both fields resolved. -/
theorem c4_validation_400_counterexample :
    ¬ (∀ (body : JsVal) (env : SummaryEnv),
        (examSummaryHandler body env).1.status = 400 →
        resolvedFields body = false ∧ (examSummaryHandler body env).2.1 = false) := by
  intro hclaim
  have h := hclaim bodyRollSubj envCollab400 (by decide)
  exact absurd h.1 (by decide)

/-- C4 (witness): the amended theorem applied to the empty body: the
validation 400 with no fetch and no provider call. -/
theorem c4_validation_400_witness :
    examSummaryHandler bodyEmpty envNoFolders =
      (⟨400, some (.vstr kProvideMsg), none, none, none, none⟩, false, false) :=
  ((c4_validation_400_amended bodyEmpty envNoFolders rfl).2 (by decide))

/-- C10: subject lookup in a folder is case-insensitive and
whitespace-trimmed on both sides: it returns the first subject of the
folder's `subjects` array whose normalised (stringified, trimmed,
lower-cased) `subjectName` equals the normalised requested name; it
returns null when the requested name normalises to the empty string or
when the `subjects` field is not an array — so a blank subject name
never matches any subject. -/
theorem c10_subject_lookup : ∀ (folder name : JsVal),
    (subjNorm name = [] → findSubjectInFolder folder name = .vnull) ∧
    ((¬ ∃ xs, getField folder kSubjects = .varr xs) →
      findSubjectInFolder folder name = .vnull) ∧
    (∀ xs, getField folder kSubjects = .varr xs → subjNorm name ≠ [] →
      ((∀ s ∈ JsArr.toList xs, subjNorm (getField s kSubjectName) ≠ subjNorm name) →
        findSubjectInFolder folder name = .vnull) ∧
      (∀ pre e rest, JsArr.toList xs = pre ++ e :: rest →
        (∀ x ∈ pre, subjNorm (getField x kSubjectName) ≠ subjNorm name) →
        subjNorm (getField e kSubjectName) = subjNorm name →
        findSubjectInFolder folder name = e)) := by
  intro folder name
  refine ⟨?_, ?_, ?_⟩
  · intro ht
    rw [findSubjectInFolder]
    simp [ht]
  · intro hnex
    rw [findSubjectInFolder]
    by_cases ht : (subjNorm name).isEmpty = true
    · simp [ht]
    · have ht' : (subjNorm name).isEmpty = false := by simpa using ht
      cases hg : getField folder kSubjects with
      | varr xs => exact absurd ⟨xs, hg⟩ hnex
      | vundefined => simp [ht', hg]
      | vnull => simp [ht', hg]
      | vbool b => simp [ht', hg]
      | vnum n => simp [ht', hg]
      | vstr s => simp [ht', hg]
      | vobj o => simp [ht', hg]
  · intro xs hg htne
    have htne' : (subjNorm name).isEmpty = false := by
      cases hsn : subjNorm name with
      | nil => exact absurd hsn htne
      | cons a b => rfl
    constructor
    · intro hall
      have hfind : (JsArr.toList xs).find?
          (fun s => subjNorm (getField s kSubjectName) == subjNorm name) = none := by
        rw [List.find?_eq_none]
        intro x hx
        simp only [ne_eq, beq_iff_eq]
        exact hall x hx
      rw [findSubjectInFolder]
      simp [htne', hg, hfind]
    · intro pre e rest hdecomp hpre he
      have hfind : (JsArr.toList xs).find?
          (fun s => subjNorm (getField s kSubjectName) == subjNorm name) = some e := by
        apply (find?_split _ _ _).mpr
        refine ⟨pre, rest, hdecomp, ?_, by simp [he]⟩
        intro x hx
        simp only [beq_eq_false_iff_ne, ne_eq]
        exact hpre x hx
      have htruthy : truthy e = true :=
        truthy_of_subjNorm_ne e kSubjectName (by rw [he]; exact htne)
      rw [findSubjectInFolder]
      simp [htne', hg, hfind, jsOr, htruthy]

/-- C10 (witness): looking up `DSA` in a folder whose second subject is
named ` dsa ` returns that subject. -/
theorem c10_subject_lookup_witness :
    findSubjectInFolder folderTwoSubjects (.vstr ((r"DSA").toList)) = dsaSubj := by
  apply ((c10_subject_lookup folderTwoSubjects (.vstr ((r"DSA").toList))).2.2
    (jarr [mathsSubj, dsaSubj]) rfl (by decide)).2 [mathsSubj] dsaSubj [] rfl
  · intro x hx
    have hx' : x = mathsSubj := by simpa using hx
    subst hx'
    decide
  · decide

theorem extract_text_vstr (s : List Char) :
    jsToString (jsOr (.vstr s) (.vstr [])) = s := by
  cases s with
  | nil => rfl
  | cons c tl => rfl

theorem extract_rollNo_vstr (s : List Char) :
    (extractRollAndSubject (.vstr s)).rollNo = (findRoll (jsTrim s)).map jsUpper := by
  rw [show (extractRollAndSubject (.vstr s)).rollNo =
      (findRoll (jsTrim (jsToString (jsOr (.vstr s) (.vstr []))))).map jsUpper from rfl,
    extract_text_vstr]

theorem extract_subjectName_vstr (s : List Char) :
    (extractRollAndSubject (.vstr s)).subjectName =
      (match (kwFirstMatch (jsTrim s)).map jsTrim with
       | some t =>
         if !t.isEmpty then some t
         else
           match findToken (jsTrim s) with
           | some tok => some (jsUpper tok)
           | none => some t
       | none =>
         match findToken (jsTrim s) with
         | some tok => some (jsUpper tok)
         | none => none) := by
  rw [show (extractRollAndSubject (.vstr s)).subjectName =
      (match (kwFirstMatch (jsTrim (jsToString (jsOr (.vstr s) (.vstr []))))).map jsTrim with
       | some t =>
         if !t.isEmpty then some t
         else
           match findToken (jsTrim (jsToString (jsOr (.vstr s) (.vstr [])))) with
           | some tok => some (jsUpper tok)
           | none => some t
       | none =>
         match findToken (jsTrim (jsToString (jsOr (.vstr s) (.vstr [])))) with
         | some tok => some (jsUpper tok)
         | none => none) from rfl,
    extract_text_vstr]

theorem boundedRollAt_iff (text : List Char) (n : ℕ) (r0 : List Char) :
    boundedRollAt text n = some r0 ↔ BoundedAt text n r0 := by
  unfold boundedRollAt BoundedAt
  rw [rollMatchHere_iff]

theorem rawShape_ne_nil (r0 : List Char) (h : rawShape r0 = true) : r0 ≠ [] := by
  intro hn
  subst hn
  simp [rawShape] at h

theorem boundedAt_le (text : List Char) (n : ℕ) (r0 : List Char)
    (h : BoundedAt text n r0) : n ≤ text.length := by
  obtain ⟨-, hshape, ⟨t, hdrop⟩, -⟩ := h
  by_contra hgt
  rw [List.drop_eq_nil_of_le (by omega)] at hdrop
  have := List.append_eq_nil.mp hdrop.symm
  exact rawShape_ne_nil _ hshape this.1

/-- C5 (amended): the query extractor is total and pure — the embedding
is a total Lean function, matching the JS code whose regex calls cannot
throw on a string input.  For every string input each field is an
extracted string or null; a returned `rollNo` is the upper-casing of a
word-bounded roll-pattern match; a returned `subjectName` is nonempty
except in one corner case, in which the keyword capture consists of
whitespace only (trimming to the empty string) and no whitelist token
occurs — there the empty string is returned instead of null, which
corrects the claim's `each field well-formed or null`. -/
theorem c5_extractor_total_amended : ∀ s : List Char,
    (∀ r, (extractRollAndSubject (.vstr s)).rollNo = some r →
      ∃ r0, rawShape r0 = true ∧ r = jsUpper r0) ∧
    (∀ t, (extractRollAndSubject (.vstr s)).subjectName = some t →
      t ≠ [] ∨
      (∃ cap, kwFirstMatch (jsTrim s) = some cap ∧ jsTrim cap = [] ∧
        findToken (jsTrim s) = none ∧ t = [])) := by
  intro s
  constructor
  · intro r hr
    rw [extract_rollNo_vstr] at hr
    obtain ⟨r0, hfind, hup⟩ := Option.map_eq_some'.mp hr
    obtain ⟨n, _, hhit, _⟩ :=
      (scanFirst_some_iff rollMatchHere (jsTrim s) none r0).mp hfind
    have hB := (rollMatchHere_iff _ _ _).mp hhit
    exact ⟨r0, hB.2.1, hup.symm⟩
  · intro t ht
    rw [extract_subjectName_vstr] at ht
    cases hm : kwFirstMatch (jsTrim s) with
    | none =>
      simp only [hm, Option.map_none'] at ht
      cases htok : findToken (jsTrim s) with
      | some tok =>
        simp only [htok] at ht
        injection ht with ht
        subst ht
        exact Or.inl (jsUpper_ne_nil tok (findToken_nonempty _ _ htok))
      | none =>
        simp only [htok] at ht
        exact absurd ht (by simp)
    | some cap =>
      simp only [hm, Option.map_some'] at ht
      by_cases hemp : (jsTrim cap).isEmpty = true
      · rw [hemp] at ht
        simp only [Bool.not_true, Bool.false_eq_true, if_false] at ht
        cases htok : findToken (jsTrim s) with
        | some tok =>
          simp only [htok] at ht
          injection ht with ht
          subst ht
          exact Or.inl (jsUpper_ne_nil tok (findToken_nonempty _ _ htok))
        | none =>
          simp only [htok] at ht
          injection ht with ht
          have hcap : jsTrim cap = [] := by
            cases hc : jsTrim cap with
            | nil => rfl
            | cons a b => rw [hc] at hemp; exact absurd hemp (by simp)
          refine Or.inr ⟨cap, rfl, hcap, rfl, ?_⟩
          rw [← ht, hcap]
      · have hemp' : (jsTrim cap).isEmpty = false := by simpa using hemp
        rw [hemp'] at ht
        simp only [Bool.not_false, if_true] at ht
        injection ht with ht
        subst ht
        left
        intro hn
        rw [hn] at hemp'
        exact absurd hemp' (by simp)

/-- C5 (counterexample): on the message `subject   5` the subject regex
captures two spaces (the capture group admits spaces, and the digit
provides the closing word boundary), the capture trims to the empty
string, no whitelist token occurs, and the extractor returns the empty
string — neither null nor a well-formed (nonempty) subject name. -/
theorem c5_extractor_counterexample :
    ¬ ((extractRollAndSubject (.vstr cxMsgC5)).subjectName = none ∨
       ∃ t, (extractRollAndSubject (.vstr cxMsgC5)).subjectName = some t ∧ t ≠ []) := by
  have h0 : (extractRollAndSubject (.vstr cxMsgC5)).subjectName = some [] := by decide
  rintro (h | ⟨t, ht, htne⟩)
  · rw [h0] at h
    exact absurd h (by simp)
  · rw [h0] at ht
    injection ht with ht
    exact htne ht.symm

/-- C5 (witness): the amended theorem applied to the example message:
the extracted roll number is the upper-casing of a roll-shaped match. -/
theorem c5_extractor_witness :
    ∃ r0, rawShape r0 = true ∧ ((r"21CMR001").toList : List Char) = jsUpper r0 :=
  (c5_extractor_total_amended exMsgC6).1 ((r"21CMR001").toList) (by decide)

/-- C6 (amended): for `review my paper roll 21CMR001 subject DSA` with
no explicit fields the extractor yields `21CMR001` and `DSA`; in general
the roll number is the upper-casing of the substring at the leftmost
position carrying a word-boundary-delimited match of
`2 digits + 2-6 letters + 3-4 digits`, and null exactly when no position
carries such a bounded match.  The word-boundary requirement (`\b` on
both sides in the code's regex) corrects the claim's `first substring
matching the raw pattern` reading; see the counterexample. -/
theorem c6_roll_extraction_amended :
    ((extractRollAndSubject (.vstr exMsgC6)).rollNo = some ((r"21CMR001").toList) ∧
     (extractRollAndSubject (.vstr exMsgC6)).subjectName = some ((r"DSA").toList)) ∧
    (∀ (s r : List Char),
      (extractRollAndSubject (.vstr s)).rollNo = some r ↔
        ∃ n r0, BoundedAt (jsTrim s) n r0 ∧ r = jsUpper r0 ∧
          ∀ m r1, m < n → ¬ BoundedAt (jsTrim s) m r1) ∧
    (∀ s : List Char,
      (extractRollAndSubject (.vstr s)).rollNo = none ↔
        ∀ n r0, ¬ BoundedAt (jsTrim s) n r0) := by
  refine ⟨⟨by decide, by decide⟩, ?_, ?_⟩
  · intro s r
    rw [extract_rollNo_vstr]
    constructor
    · intro h
      obtain ⟨r0, hfind, hup⟩ := Option.map_eq_some'.mp h
      obtain ⟨n, hn, hhit, hbefore⟩ :=
        (scanFirst_some_iff rollMatchHere (jsTrim s) none r0).mp hfind
      refine ⟨n, r0, (boundedRollAt_iff _ _ _).mp hhit, hup.symm, ?_⟩
      intro m r1 hm hB
      have hnone := hbefore m hm
      have hsome := (boundedRollAt_iff (jsTrim s) m r1).mpr hB
      rw [show boundedRollAt (jsTrim s) m =
        rollMatchHere (prevN none (jsTrim s) m) ((jsTrim s).drop m) from rfl] at hsome
      rw [hnone] at hsome
      exact absurd hsome (by simp)
    · rintro ⟨n, r0, hB, hup, hmin⟩
      have hnle : n ≤ (jsTrim s).length := boundedAt_le _ _ _ hB
      have hhit : rollMatchHere (prevN none (jsTrim s) n) ((jsTrim s).drop n) = some r0 :=
        (boundedRollAt_iff _ _ _).mpr hB
      have hscan : findRoll (jsTrim s) = some r0 := by
        apply (scanFirst_some_iff rollMatchHere (jsTrim s) none r0).mpr
        refine ⟨n, hnle, hhit, ?_⟩
        intro m hm
        cases hx : rollMatchHere (prevN none (jsTrim s) m) ((jsTrim s).drop m) with
        | some r1 => exact absurd ((boundedRollAt_iff _ _ _).mp hx) (hmin m r1 hm)
        | none => rfl
      rw [hscan, Option.map_some', hup]
  · intro s
    rw [extract_rollNo_vstr]
    constructor
    · intro h n r0 hB
      have hnone : findRoll (jsTrim s) = none := by
        cases hx : findRoll (jsTrim s) with
        | none => rfl
        | some a => rw [hx] at h; exact absurd h (by simp)
      have hall := (scanFirst_none_iff rollMatchHere (jsTrim s) none).mp hnone
      have hnle := boundedAt_le _ _ _ hB
      have hhit := (boundedRollAt_iff _ _ _).mpr hB
      rw [show boundedRollAt (jsTrim s) n =
        rollMatchHere (prevN none (jsTrim s) n) ((jsTrim s).drop n) from rfl] at hhit
      rw [hall n hnle] at hhit
      exact absurd hhit (by simp)
    · intro hnb
      have hsc : findRoll (jsTrim s) = none := by
        apply (scanFirst_none_iff rollMatchHere (jsTrim s) none).mpr
        intro n hn
        cases hx : rollMatchHere (prevN none (jsTrim s) n) ((jsTrim s).drop n) with
        | some r1 => exact absurd ((boundedRollAt_iff _ _ _).mp hx) (hnb n r1)
        | none => rfl
      rw [hsc, Option.map_none']

/-- C6 (counterexample): the claim, as stated, derives the roll number
from the first substring matching the raw pattern, null only when no
substring matches; but on `A21CMR001` the substring `21CMR001` matches
the raw pattern while the code returns null, because the leading word
boundary `\b` of the regex fails after the letter `A`. -/
theorem c6_roll_extraction_counterexample :
    ¬ (∀ s : List Char,
        (extractRollAndSubject (.vstr s)).rollNo = none →
        existsRawSub (jsTrim s) = false) := by
  intro hclaim
  have h := hclaim cxMsgC6 (by decide)
  rw [show existsRawSub (jsTrim cxMsgC6) = true from by decide] at h
  exact absurd h (by simp)

/-- C6 (witness): the amended theorem's general clause applied to the
example message: there is a bounded roll match upper-casing to
`21CMR001`, with no earlier bounded match. -/
theorem c6_roll_extraction_witness :
    ∃ n r0, BoundedAt (jsTrim exMsgC6) n r0 ∧
      ((r"21CMR001").toList : List Char) = jsUpper r0 ∧
      ∀ m r1, m < n → ¬ BoundedAt (jsTrim exMsgC6) m r1 :=
  (c6_roll_extraction_amended.2.1 exMsgC6 ((r"21CMR001").toList)).mp (by decide)
